import Mathlib

set_option maxHeartbeats 1000000

/-!
Verification of the Orca starter-kit agent core against its specification.

The embedded source files are:
* `conversation_manager.js` — the bounded per-thread conversation store;
* `agent_utils.js` — system-prompt and OpenAI message-list formatting;
* `main.js` (`processMessage`) — the streaming response assembly and
  tool-call accumulation loop;
* `function_handler.js` — the tool-call dispatcher and the DALL-E handler.

JavaScript runtime facilities the source calls but does not define are
modelled explicitly and named below: `JSON.parse` (as `jsonParse` over the
`Json` value type), string truthiness (`jsTruthyS`), the SDK `Variables`
helper (`varsGet`), `Date` (timestamps are passed in as arguments), and the
OpenAI chat/images endpoints (the completion stream is an input list of
chunks; the image endpoint is an oracle parameter).
-/

/-! ### JavaScript JSON values and a model of `JSON.parse` -/

/-- JSON values as produced by `JSON.parse`.  Number lexemes are kept as
strings; the source never does arithmetic on parsed arguments. -/
inductive Json where
  | null : Json
  | bool (b : Bool) : Json
  | num (lexeme : String) : Json
  | str (s : String) : Json
  | arr (items : List Json) : Json
  | obj (fields : List (String × Json)) : Json

def quoteChar : Char := Char.ofNat 34
def lbraceChar : Char := Char.ofNat 123
def rbraceChar : Char := Char.ofNat 125
def lbrackChar : Char := Char.ofNat 91
def rbrackChar : Char := Char.ofNat 93
def colonChar : Char := Char.ofNat 58
def commaChar : Char := Char.ofNat 44
def minusChar : Char := Char.ofNat 45
def dotChar : Char := Char.ofNat 46
def backslashChar : Char := Char.ofNat 92

def isJsonWs (c : Char) : Bool :=
  c == Char.ofNat 32 || c == Char.ofNat 9 || c == Char.ofNat 10 || c == Char.ofNat 13

def skipWs : List Char → List Char
  | [] => []
  | c :: cs => if isJsonWs c then skipWs cs else c :: cs

/-- Map a JSON escape character to the character it denotes (enough of the
escape table for this development; `\u` escapes are not modelled). -/
def jsonUnescape (e : Char) : Char :=
  if e == Char.ofNat 110 then Char.ofNat 10
  else if e == Char.ofNat 116 then Char.ofNat 9
  else if e == Char.ofNat 114 then Char.ofNat 13
  else e

/-- Parse the body of a string literal, the opening quote already consumed.
Returns the decoded characters and the remaining input. -/
def parseStringChars : List Char → Option (List Char × List Char)
  | [] => none
  | c :: cs =>
    if c == quoteChar then some ([], cs)
    else if c == backslashChar then
      match cs with
      | [] => none
      | e :: cs' =>
        match parseStringChars cs' with
        | some (out, rest) => some (jsonUnescape e :: out, rest)
        | none => none
    else
      match parseStringChars cs with
      | some (out, rest) => some (c :: out, rest)
      | none => none

def takeDigits : List Char → (List Char × List Char)
  | [] => ([], [])
  | c :: cs =>
    if c.isDigit then
      let (d, r) := takeDigits cs
      (c :: d, r)
    else ([], c :: cs)

/-- Parse a JSON number lexeme: optional minus, integer digits, optional
fraction, optional exponent. -/
def parseNumberLexeme (cs : List Char) : Option (List Char × List Char) :=
  let (sign, cs1) :=
    match cs with
    | c :: rest => if c == minusChar then ([c], rest) else (([] : List Char), cs)
    | [] => ([], cs)
  let (intDigits, cs2) := takeDigits cs1
  if intDigits.isEmpty then none
  else
    let (fracDigits, cs3) :=
      match cs2 with
      | c :: rest =>
        if c == dotChar then
          let (d, r) := takeDigits rest
          if d.isEmpty then (([] : List Char), cs2) else (c :: d, r)
        else ([], cs2)
      | [] => ([], cs2)
    let (expDigits, cs4) :=
      match cs3 with
      | c :: rest =>
        if c == Char.ofNat 101 || c == Char.ofNat 69 then
          let (sgn, rest') :=
            match rest with
            | c2 :: rr =>
              if c2 == minusChar || c2 == Char.ofNat 43 then ([c2], rr)
              else (([] : List Char), rest)
            | [] => ([], rest)
          let (d, r) := takeDigits rest'
          if d.isEmpty then (([] : List Char), cs3) else (c :: (sgn ++ d), r)
        else ([], cs3)
      | [] => ([], cs3)
    some (sign ++ intDigits ++ fracDigits ++ expDigits, cs4)

/-- Strip a literal token (`true`, `false`, `null`) from the input. -/
def stripToken : List Char → List Char → Option (List Char)
  | [], cs => some cs
  | l :: ls, c :: cs => if c == l then stripToken ls cs else none
  | _ :: _, [] => none

mutual

/-- Recursive-descent JSON value parse, fuelled for termination. -/
def parseValue : Nat → List Char → Option (Json × List Char)
  | 0, _ => none
  | fuel + 1, cs =>
    let cs' := skipWs cs
    match stripToken "true".data cs' with
    | some r => some (.bool true, r)
    | none =>
    match stripToken "false".data cs' with
    | some r => some (.bool false, r)
    | none =>
    match stripToken "null".data cs' with
    | some r => some (.null, r)
    | none =>
    match cs' with
    | [] => none
    | c :: rest =>
      if c == quoteChar then
        match parseStringChars rest with
        | some (out, r) => some (.str (String.mk out), r)
        | none => none
      else if c == lbraceChar then
        match parseObjFields fuel true rest with
        | some (fs, r) => some (.obj fs, r)
        | none => none
      else if c == lbrackChar then
        match parseArrItems fuel true rest with
        | some (items, r) => some (.arr items, r)
        | none => none
      else
        match parseNumberLexeme cs' with
        | some (lex, r) => some (.num (String.mk lex), r)
        | none => none

/-- Members of an object, the opening brace already consumed.  `allowEmpty`
is true only before the first member (a closing brace directly after a comma
is invalid JSON). -/
def parseObjFields : Nat → Bool → List Char → Option (List (String × Json) × List Char)
  | 0, _, _ => none
  | fuel + 1, allowEmpty, cs =>
    match skipWs cs with
    | [] => none
    | c :: rest =>
      if allowEmpty && c == rbraceChar then some ([], rest)
      else if c == quoteChar then
        match parseStringChars rest with
        | none => none
        | some (key, r1) =>
          match skipWs r1 with
          | [] => none
          | c2 :: r2 =>
            if c2 == colonChar then
              match parseValue fuel r2 with
              | none => none
              | some (v, r3) =>
                match skipWs r3 with
                | [] => none
                | c3 :: r4 =>
                  if c3 == commaChar then
                    match parseObjFields fuel false r4 with
                    | some (fs, r5) => some ((String.mk key, v) :: fs, r5)
                    | none => none
                  else if c3 == rbraceChar then some ([(String.mk key, v)], r4)
                  else none
            else none
      else none

/-- Items of an array, the opening bracket already consumed. -/
def parseArrItems : Nat → Bool → List Char → Option (List Json × List Char)
  | 0, _, _ => none
  | fuel + 1, allowEmpty, cs =>
    match skipWs cs with
    | [] => none
    | c :: _ =>
      if allowEmpty && c == rbrackChar then
        match skipWs cs with
        | _ :: rest => some ([], rest)
        | [] => none
      else
        match parseValue fuel cs with
        | none => none
        | some (v, r1) =>
          match skipWs r1 with
          | [] => none
          | c2 :: r2 =>
            if c2 == commaChar then
              match parseArrItems fuel false r2 with
              | some (items, r3) => some (v :: items, r3)
              | none => none
            else if c2 == rbrackChar then some ([v], r2)
            else none

end

/-- Model of the JavaScript builtin `JSON.parse`: `none` models a thrown
`SyntaxError`, `some v` a successfully parsed value.  The whole input must
be consumed up to trailing whitespace. -/
def jsonParse (s : String) : Option Json :=
  match parseValue (s.length + 2) s.data with
  | some (j, rest) => if (skipWs rest).isEmpty then some j else none
  | none => none

/-- Property read `fields[key]` on a parsed object: the last occurrence of a
duplicated key wins, as in `JSON.parse`. -/
def jsonObjGet : List (String × Json) → String → Option Json
  | [], _ => none
  | (k, v) :: rest, key =>
    match jsonObjGet rest key with
    | some r => some r
    | none => if k = key then some v else none

/-- `args.key` where a string is expected; non-objects and non-string values
give `none` (JavaScript `undefined`). -/
def jsonGetStr (j : Json) (key : String) : Option String :=
  match j with
  | .obj fields =>
    match jsonObjGet fields key with
    | some (.str s) => some s
    | _ => none
  | _ => none

/-! ### `conversation_manager.js` — the ConversationManager store

JavaScript arrays are mutable objects reached by reference; to state the
aliasing behaviour of `getHistory` faithfully the store is embedded with an
explicit heap: `conversations` maps a thread id to the index of its array in
`heap`.  `Map.set` on a fresh key appends the entry; `Map.delete` removes
it.  `_getTimestamp` calls `Date` (external), so every mutator takes the
timestamp as an argument. -/

structure Message where
  role : String
  content : String
  timestamp : String
deriving DecidableEq

structure ConvState where
  maxHistory : Nat
  conversations : List (String × Nat)
  heap : List (List Message)
deriving DecidableEq

/-- `new ConversationManager(maxHistory)`. -/
def mkConversationManager (maxHistory : Nat) : ConvState :=
  { maxHistory := maxHistory, conversations := [], heap := [] }

/-- `Map.prototype.get` / `has` on the thread map. -/
def mapLookup (key : String) : List (String × Nat) → Option Nat
  | [] => none
  | p :: rest => if p.1 = key then some p.2 else mapLookup key rest

/-- Dereference an array: `heap[r]`.  Out-of-range reads (never reachable
from the store's own operations) give the empty array. -/
def heapGet (h : List (List Message)) (r : Nat) : List Message :=
  (h.get? r).getD []

/-- The `if (threadHistory.length > this.maxHistory) threadHistory.shift()`
step after a push. -/
def trimHistory (maxH : Nat) (arr : List Message) : List Message :=
  if maxH < arr.length then arr.drop 1 else arr

/-- `ConversationManager.addMessage(threadId, role, content)`: create the
thread's array if absent (`Map.set` appends the entry and allocates a fresh
empty array), push the new message, then shift once if over the limit. -/
def addMessage (threadId role content ts : String) (s : ConvState) : ConvState :=
  match mapLookup threadId s.conversations with
  | none =>
    let r := s.heap.length
    let heap1 := s.heap ++ [[]]
    { s with
      conversations := s.conversations ++ [(threadId, r)],
      heap := heap1.set r (trimHistory s.maxHistory (heapGet heap1 r ++ [⟨role, content, ts⟩])) }
  | some r =>
    { s with
      heap := s.heap.set r (trimHistory s.maxHistory (heapGet s.heap r ++ [⟨role, content, ts⟩])) }

/-- `ConversationManager.getHistory(threadId)` returns
`this.conversations.get(threadId) || []`: for a known key that is the
internal array itself (a reference, modelled by its heap index); for an
unknown key a fresh empty array not connected to the store (`none`). -/
def getHistory (threadId : String) (s : ConvState) : Option Nat :=
  mapLookup threadId s.conversations

/-- The message sequence a caller observes by reading `getHistory threadId`. -/
def historyContents (threadId : String) (s : ConvState) : List Message :=
  match getHistory threadId s with
  | some r => heapGet s.heap r
  | none => []

/-- A caller mutating the array returned by `getHistory` in place:
`getHistory(t).push(m)` writes through the reference into the store's heap. -/
def callerPush (r : Nat) (m : Message) (s : ConvState) : ConvState :=
  { s with heap := s.heap.set r (heapGet s.heap r ++ [m]) }

/-- `ConversationManager.clearHistory(threadId)`: `Map.delete`. -/
def clearHistory (threadId : String) (s : ConvState) : ConvState :=
  { s with conversations := s.conversations.filter (fun p => p.1 != threadId) }

/-- `ConversationManager.getAllThreads()`. -/
def getAllThreads (s : ConvState) : List String :=
  s.conversations.map (·.1)

/-- `ConversationManager.getThreadCount()`. -/
def getThreadCount (s : ConvState) : Nat :=
  s.conversations.length

/-- Well-formedness of a store state: every thread's heap reference is in
range, and distinct map entries have distinct keys and distinct arrays.
Every state reachable from `mkConversationManager` satisfies this. -/
def WF (s : ConvState) : Prop :=
  (∀ p ∈ s.conversations, p.2 < s.heap.length) ∧
  s.conversations.Pairwise (fun p q => p.1 ≠ q.1 ∧ p.2 ≠ q.2)

/-- A sequence of `maxHistory + k` appends to one key. -/
def appendMessages (threadId : String) (msgs : List Message) (s : ConvState) : ConvState :=
  msgs.foldl (fun acc m => addMessage threadId m.role m.content m.timestamp acc) s

/-- The store mutations, for stating the length invariant over every
reachable state. -/
inductive StoreOp where
  | add (threadId role content ts : String)
  | clear (threadId : String)

def execOp (s : ConvState) : StoreOp → ConvState
  | .add threadId role content ts => addMessage threadId role content ts s
  | .clear threadId => clearHistory threadId s

def execOps (ops : List StoreOp) (s : ConvState) : ConvState :=
  ops.foldl execOp s

/-! ### `agent_utils.js` -/

structure OpenAIMessage where
  role : String
  content : String
deriving DecidableEq

/-- JavaScript string-option truthiness: `undefined` and `""` are falsy. -/
def jsTruthyS : Option String → Bool
  | some s => s != ""
  | none => false

/-- `formatSystemPrompt(systemMessage, projectSystemMessage)`. -/
def formatSystemPrompt (systemMessage projectSystemMessage : Option String) : String :=
  let basePrompt := "You are a helpful AI assistant."
  let basePrompt :=
    if jsTruthyS systemMessage then systemMessage.getD basePrompt else basePrompt
  if jsTruthyS projectSystemMessage then
    basePrompt ++ "\n\nProject Context: " ++ projectSystemMessage.getD ""
  else basePrompt

/-- `formatMessagesForOpenAI(systemPrompt, conversationHistory, currentMessage)`:
start from the system prompt, push each history message reduced to role and
content, push the current user message. -/
def formatMessagesForOpenAI (systemPrompt : String) (conversationHistory : List Message)
    (currentMessage : String) : List OpenAIMessage :=
  let messages : List OpenAIMessage := [⟨"system", systemPrompt⟩]
  let messages := conversationHistory.foldl (fun acc msg => acc ++ [⟨msg.role, msg.content⟩]) messages
  messages ++ [⟨"user", currentMessage⟩]

/-! ### The streaming loop of `processMessage` (`main.js`, lines 226-292)

The OpenAI completion client is an external collaborator: the chunk sequence
it yields is an input.  `chunk.choices[0]?.delta` is collapsed into the
chunk record; the usage payload is abstracted to a `Nat` tag.  Each
`lexia.streamChunk` call site is modelled as one `SinkEvent` carrying the
data that call interpolates into its message text. -/

/-- `toolCall.function` in a tool-call delta. -/
structure FunctionDelta where
  name : Option String
  arguments : Option String
deriving DecidableEq

/-- One entry of `chunk.choices[0].delta.tool_calls`. -/
structure ToolCallDelta where
  index : Nat
  id : Option String
  fn : Option FunctionDelta
deriving DecidableEq

structure StreamChunk where
  content : Option String
  tool_calls : List ToolCallDelta
  usage : Option Nat
deriving DecidableEq

/-- One `lexia.streamChunk(data, …)` call, tagged by its call site. -/
inductive SinkEvent where
  | textChunk (s : String)
  | callingFunction (name : Option String)
  | functionParams (args : Json)
  | processingFunction (name : Option String)
  | executingGenerateImage
  | loadingImageStart
  | loadingImageEnd
  | functionCompleted
  | imageResult (prompt : String) (url : String)

/-- One accumulator slot of the `functionCalls` array. -/
structure FnCallAcc where
  id : Option String
  name : Option String
  arguments : String
deriving DecidableEq

structure LoopState where
  fullResponse : String
  usageInfo : Option Nat
  functionCalls : List FnCallAcc
  sink : List SinkEvent

def initLoopState : LoopState := ⟨"", none, [], []⟩

/-- `currentArgs.endsWith('"') || currentArgs.endsWith('}') || currentArgs.endsWith(']')`. -/
def endsWithCloser (s : String) : Bool :=
  match s.data.getLast? with
  | some c => c == quoteChar || c == rbraceChar || c == rbrackChar
  | none => false

/-- `if (functionCalls.length <= toolCall.index)`: push a new slot and
announce the call. -/
def initSlot (st : LoopState) (d : ToolCallDelta) (f : FunctionDelta) : LoopState :=
  if st.functionCalls.length ≤ d.index then
    { st with
      functionCalls := st.functionCalls ++ [⟨d.id, f.name, ""⟩],
      sink := st.sink ++ [.callingFunction f.name] }
  else st

/-- One iteration of `for (const toolCall of chunk.choices[0].delta.tool_calls)`.
An index that skips ahead leaves `functionCalls[toolCall.index]` undefined in
the source and the ensuing property access throws; the thrown state carries the
sink output already delivered. -/
def processToolDelta (st : LoopState) (d : ToolCallDelta) : Except (List SinkEvent) LoopState :=
  match d.fn with
  | none => .ok st
  | some f =>
    let st1 := initSlot st d f
    match f.arguments with
    | some a =>
      if a != "" then
        match st1.functionCalls.get? d.index with
        | none => .error st1.sink
        | some old =>
          let newAcc := old.arguments ++ a
          let st2 := { st1 with
            functionCalls := st1.functionCalls.set d.index { old with arguments := newAcc } }
          match (if endsWithCloser newAcc then jsonParse newAcc else none) with
          | some j => .ok { st2 with sink := st2.sink ++ [.functionParams j] }
          | none => .ok st2
      else .ok st1
    | none => .ok st1

def runDeltas : LoopState → List ToolCallDelta → Except (List SinkEvent) LoopState
  | st, [] => .ok st
  | st, d :: ds =>
    match processToolDelta st d with
    | .ok st' => runDeltas st' ds
    | .error e => .error e

/-- `if (chunk.choices[0]?.delta?.content)`: append the fragment to
`fullResponse` and forward it; a falsy (absent or empty) fragment is
skipped. -/
def applyContent (st : LoopState) (content : Option String) : LoopState :=
  match content with
  | some c =>
    if c != "" then
      { st with fullResponse := st.fullResponse ++ c, sink := st.sink ++ [.textChunk c] }
    else st
  | none => st

/-- `if (chunk.usage)`: capture the latest usage payload. -/
def applyUsage (st : LoopState) (usage : Option Nat) : LoopState :=
  match usage with
  | some u => { st with usageInfo := some u }
  | none => st

/-- One iteration of `for await (const chunk of stream)`: text content first
(skipped when falsy), then the tool-call deltas, then the usage capture. -/
def processChunk (st : LoopState) (ck : StreamChunk) : Except (List SinkEvent) LoopState :=
  match runDeltas (applyContent st ck.content) ck.tool_calls with
  | .error e => .error e
  | .ok st' => .ok (applyUsage st' ck.usage)

def runChunks : LoopState → List StreamChunk → Except (List SinkEvent) LoopState
  | st, [] => .ok st
  | st, ck :: cks =>
    match processChunk st ck with
    | .ok st' => runChunks st' cks
    | .error e => .error e

/-- The whole streaming loop of `processMessage`. -/
def runStreamLoop (chunks : List StreamChunk) : Except (List SinkEvent) LoopState :=
  runChunks initLoopState chunks

/-! ### `function_handler.js` -/

/-- Modelled from the spec: the SDK `Variables` helper (external to src/)
resolves a variable by name from the request's variables list. -/
def varsGet : List (String × String) → String → Option String
  | [], _ => none
  | p :: rest, name => if p.1 = name then some p.2 else varsGet rest name

/-- The external `client.images.generate` endpoint: given the prompt (absent
when the parsed arguments had none) and the size/quality/style strings it
either returns an image URL or throws. -/
def DalleOracle : Type := Option String → String → String → String → Except String String

/-- `generateImageWithDALLE(prompt, variables, size, quality, style)`: check
the variables and API key, call the endpoint, and wrap any thrown message. -/
def generateImageWithDALLE (prompt : Option String) (variablesArg : Option (List (String × String)))
    (size quality style : String) (oracle : DalleOracle) : Except String String :=
  let attempt : Except String String :=
    match variablesArg with
    | none => .error "Variables not provided to generateImageWithDALLE"
    | some vars =>
      if jsTruthyS (varsGet vars "OPENAI_API_KEY") then oracle prompt size quality style
      else .error "OpenAI API key not found in variables"
  match attempt with
  | .ok url => .ok url
  | .error e => .error ("Error generating image with DALL-E: " ++ e)

/-- Outcome of executing function calls: the streamed events, the result
text, and the generated file URL. -/
structure ExecOutcome where
  sink : List SinkEvent
  result : String
  fileUrl : Option String

/-- `args.size || "1024x1024"` and friends. -/
def jsOrS : Option String → String → String
  | some s, d => if s != "" then s else d
  | none, d => d

/-- Stands for the engine-specific message of the `SyntaxError` thrown by
`JSON.parse` on malformed input. -/
def jsonParseErrMsg : String := "Unexpected end of JSON input"

def funcExecErrorText (e : String) : String :=
  "\n\n❌ **Function Execution Error:** Error executing generate_image function: " ++ e

def imageResultText (prompt url : String) : String :=
  "\n\n🎨 **Image Generated Successfully!**\n\n**Prompt:** " ++ prompt ++
    "\n**Image URL:** [orca.image.start]" ++ url ++ "[orca.image.end] \n\n*Image created with DALL-E 3*"

/-- `executeGenerateImage(functionCall, orcaHandler, data)`: parse the
accumulated arguments (a failure here is caught and turned into error text),
stream the execution/loading updates, call DALL-E, and either stream and
return the image result or return the wrapped error text. -/
def executeGenerateImage (fc : FnCallAcc) (vars : List (String × String))
    (oracle : DalleOracle) : ExecOutcome :=
  match jsonParse fc.arguments with
  | none => { sink := [], result := funcExecErrorText jsonParseErrMsg, fileUrl := none }
  | some args =>
    let prompt := jsonGetStr args "prompt"
    let size := jsOrS (jsonGetStr args "size") "1024x1024"
    let quality := jsOrS (jsonGetStr args "quality") "standard"
    let style := jsOrS (jsonGetStr args "style") "vivid"
    let pre : List SinkEvent := [.executingGenerateImage, .loadingImageStart]
    match generateImageWithDALLE prompt (some vars) size quality style oracle with
    | .error e => { sink := pre, result := funcExecErrorText e, fileUrl := none }
    | .ok url =>
      { sink := pre ++ [.loadingImageEnd, .functionCompleted,
                        .imageResult (prompt.getD "undefined") url],
        result := imageResultText (prompt.getD "undefined") url,
        fileUrl := some url }

def unknownFunctionText (name : Option String) : String :=
  "\n\n❌ **Function Error:** Unknown function: " ++ name.getD "undefined"

/-- `executeFunctionCall(functionCall, orcaHandler, data)`: announce
processing, dispatch on the function name. -/
def executeFunctionCall (fc : FnCallAcc) (vars : List (String × String))
    (oracle : DalleOracle) : ExecOutcome :=
  let pre : List SinkEvent := [.processingFunction fc.name]
  if fc.name = some "generate_image" then
    let o := executeGenerateImage fc vars oracle
    { o with sink := pre ++ o.sink }
  else
    { sink := pre, result := unknownFunctionText fc.name, fileUrl := none }

/-- The accumulation loop of `processFunctionCalls`: concatenate each
result, keep the first truthy file URL. -/
def foldCalls (vars : List (String × String)) (oracle : DalleOracle) :
    List FnCallAcc → ExecOutcome → ExecOutcome
  | [], acc => acc
  | fc :: rest, acc =>
    let o := executeFunctionCall fc vars oracle
    foldCalls vars oracle rest
      { sink := acc.sink ++ o.sink,
        result := acc.result ++ o.result,
        fileUrl := if jsTruthyS o.fileUrl && !(jsTruthyS acc.fileUrl) then o.fileUrl else acc.fileUrl }

/-- `processFunctionCalls(functionCalls, orcaHandler, data)`. -/
def processFunctionCalls (fcs : List FnCallAcc) (vars : List (String × String))
    (oracle : DalleOracle) : ExecOutcome :=
  if fcs.isEmpty then { sink := [], result := "", fileUrl := none }
  else foldCalls vars oracle fcs { sink := [], result := "", fileUrl := none }

/-! ### `processMessage` (`main.js`) -/

structure ChatData where
  thread_id : String
  message : String
  -- the source field is named `variables` (a reserved word here)
  vars : List (String × String)
  model : String
  system_message : Option String
  project_system_message : Option String

/-- The terminal platform call of one request: `lexia.completeResponse`
(with or without the file field) or `lexia.sendError`. -/
inductive CompletionAction where
  | complete (text : String) (usage : Option Nat) (file : Option String)
  | sendError (msg : String)
deriving DecidableEq

structure ProcResult where
  sink : List SinkEvent
  completion : CompletionAction
  store : ConvState

def missingKeyMsg : String :=
  "Sorry, the OpenAI API key is missing or empty. From menu right go to admin mode, then agents and edit the agent in last section you can set the openai key."

/-- Stands for the engine-specific `Error processing message: …` text of the
catch-all handler. -/
def processErrorText : String := "Error processing message: runtime error"

/-- `processMessage(data)`.  The OpenAI completion client is external: the
chunk list it yields is an input (the message list handed to it is
`formatMessagesForOpenAI`'s output, built from the post-append history, and
possibly file-augmented — a step that only shapes that external call).  The
two `Date`-derived timestamps are inputs.  Returns the streamed sink events,
the terminal platform call, and the final store. -/
def processMessage (store : ConvState) (data : ChatData) (chunks : List StreamChunk)
    (oracle : DalleOracle) (tsUser tsAssistant : String) : ProcResult :=
  if jsTruthyS (varsGet data.vars "OPENAI_API_KEY") then
    let store1 := addMessage data.thread_id "user" data.message tsUser store
    match runStreamLoop chunks with
    | .error sinkSoFar =>
      { sink := sinkSoFar, completion := .sendError processErrorText, store := store1 }
    | .ok ls =>
      let pfc := processFunctionCalls ls.functionCalls data.vars oracle
      let fullResponse := if pfc.result != "" then ls.fullResponse ++ pfc.result else ls.fullResponse
      let generatedImageUrl := if jsTruthyS pfc.fileUrl then pfc.fileUrl else none
      let store2 := addMessage data.thread_id "assistant" fullResponse tsAssistant store1
      { sink := ls.sink ++ pfc.sink,
        completion :=
          if jsTruthyS generatedImageUrl then
            .complete fullResponse ls.usageInfo generatedImageUrl
          else
            .complete fullResponse ls.usageInfo none,
        store := store2 }
  else
    { sink := [.textChunk missingKeyMsg],
      completion := .complete missingKeyMsg none none,
      store := store }

/-! ### Observation projections used by the statements -/

def strJoin : List String → String
  | [] => ""
  | s :: rest => s ++ strJoin rest

/-- All TextDelta fragments of a chunk sequence, in arrival order. -/
def textFragments (chunks : List StreamChunk) : List String :=
  chunks.filterMap (·.content)

/-- The text fragments forwarded to the sink, in order. -/
def sinkTexts (sink : List SinkEvent) : List String :=
  sink.filterMap fun e => match e with | .textChunk s => some s | _ => none

/-- The "current parameters so far" progress notifications, in order. -/
def paramsEvents (sink : List SinkEvent) : List Json :=
  sink.filterMap fun e => match e with | .functionParams j => some j | _ => none

/-! ### Concrete data for examples, witnesses and counterexamples -/

def m1 : Message := ⟨"user", "m1", "t1"⟩
def m2 : Message := ⟨"user", "m2", "t2"⟩
def m3 : Message := ⟨"user", "m3", "t3"⟩

def helloChunks : List StreamChunk :=
  [⟨some "Hello ", [], none⟩, ⟨some "world", [], none⟩]

def emptyFragmentChunk : StreamChunk := ⟨some "", [], none⟩

/-- The spec's tool-call example: identifying fields first, then the two
argument fragments of an object split across deltas. -/
def exampleToolChunks : List StreamChunk :=
  [⟨none, [⟨0, some "c1", some ⟨some "t", none⟩⟩], none⟩,
   ⟨none, [⟨0, none, some ⟨none, some "\x7b\x22a\x22:"⟩⟩], none⟩,
   ⟨none, [⟨0, none, some ⟨none, some "1\x7d"⟩⟩], none⟩]

/-- A delta whose accumulated argument text is the complete value `true`. -/
def trueToolChunks : List StreamChunk :=
  [⟨none, [⟨0, some "c1", some ⟨some "t", some "true"⟩⟩], none⟩]

def okOracle : DalleOracle := fun _ _ _ _ => .ok "http://img.example/x.png"
def failOracle : DalleOracle := fun _ _ _ _ => .error "boom"

def exampleVars : List (String × String) := [("OPENAI_API_KEY", "sk-test")]

def c2exData : ChatData := ⟨"t1", "make an image", exampleVars, "gpt-4o", none, none⟩

/-- A stream whose single tool-call slot accumulates the unparseable text
consisting of one opening brace. -/
def badJsonChunks : List StreamChunk :=
  [⟨none, [⟨0, some "c1", some ⟨some "generate_image", some "\x7b"⟩⟩], none⟩]

def noKeyData : ChatData := ⟨"t1", "hi", [], "gpt-4o", none, none⟩

def c4store : ConvState := addMessage "t" "user" "hi" "ts1" (mkConversationManager 10)
def c7store : ConvState := addMessage "x" "user" "hello" "ts1" (mkConversationManager 10)
def c8store : ConvState := addMessage "B" "user" "hi" "ts1" (mkConversationManager 10)
def evictStore : ConvState := appendMessages "t" [m1, m2] (mkConversationManager 2)

def fcUnknown : FnCallAcc := ⟨some "c1", some "other_tool", "\x7b\x7d"⟩
def fcBadJson : FnCallAcc := ⟨some "c2", some "generate_image", "\x7b"⟩
def fcGood : FnCallAcc := ⟨some "c3", some "generate_image", "\x7b\x22prompt\x22:\x22a cat\x22\x7d"⟩

/-! ### Lemmas about the store primitives -/

lemma mapLookup_append_of_none {k : String} {l : List (String × Nat)} (l' : List (String × Nat))
    (h : mapLookup k l = none) : mapLookup k (l ++ l') = mapLookup k l' := by
  induction l with
  | nil => rfl
  | cons p rest ih =>
    by_cases hp : p.1 = k
    · simp [mapLookup, hp] at h
    · simp only [mapLookup, hp, if_false, List.cons_append] at h ⊢
      exact ih h

lemma mapLookup_append_of_some {k : String} {l : List (String × Nat)} {v : Nat}
    (l' : List (String × Nat)) (h : mapLookup k l = some v) :
    mapLookup k (l ++ l') = some v := by
  induction l with
  | nil => exact Option.noConfusion h
  | cons p rest ih =>
    by_cases hp : p.1 = k
    · simp only [mapLookup, hp, if_true] at h ⊢
      exact h
    · simp only [mapLookup, hp, if_false] at h ⊢
      exact ih h

lemma mapLookup_singleton_self (k : String) (v : Nat) : mapLookup k [(k, v)] = some v := by
  simp [mapLookup]

lemma mapLookup_mem {k : String} {l : List (String × Nat)} {v : Nat}
    (h : mapLookup k l = some v) : (k, v) ∈ l := by
  induction l with
  | nil => exact Option.noConfusion h
  | cons p rest ih =>
    by_cases hp : p.1 = k
    · simp only [mapLookup, hp, if_true, Option.some.injEq] at h
      have hp2 : p = (k, v) := by
        cases p
        simp_all
      rw [hp2]
      exact List.mem_cons_self _ _
    · simp only [mapLookup, hp, if_false] at h
      exact List.mem_cons_of_mem _ (ih h)

lemma mapLookup_eq_none_forall {k : String} {l : List (String × Nat)}
    (h : mapLookup k l = none) : ∀ p ∈ l, p.1 ≠ k := by
  induction l with
  | nil => simp
  | cons p rest ih =>
    by_cases hp : p.1 = k
    · simp [mapLookup, hp] at h
    · simp only [mapLookup, hp, if_false] at h
      intro q hq
      rcases List.mem_cons.mp hq with hq1 | hq1
      · subst hq1; exact hp
      · exact ih h q hq1

lemma get?_set_self {α : Type} (l : List α) (i : Nat) (a : α) (h : i < l.length) :
    (l.set i a).get? i = some a := by
  induction l generalizing i with
  | nil => simp at h
  | cons x xs ih =>
    cases i with
    | zero => rfl
    | succ j => simpa using ih j (by simpa using h)

lemma get?_set_ne {α : Type} (l : List α) (i j : Nat) (a : α) (h : i ≠ j) :
    (l.set j a).get? i = l.get? i := by
  induction l generalizing i j with
  | nil => rfl
  | cons x xs ih =>
    cases j with
    | zero =>
      cases i with
      | zero => exact absurd rfl h
      | succ i' => rfl
    | succ j' =>
      cases i with
      | zero => rfl
      | succ i' => simpa using ih i' j' (by omega)

lemma get?_append_lt {α : Type} (l l' : List α) (i : Nat) (h : i < l.length) :
    (l ++ l').get? i = l.get? i := by
  induction l generalizing i with
  | nil => simp at h
  | cons x xs ih =>
    cases i with
    | zero => rfl
    | succ j => simpa using ih j (by simpa using h)

lemma get?_concat_self {α : Type} (l : List α) (a : α) : (l ++ [a]).get? l.length = some a := by
  induction l with
  | nil => rfl
  | cons x xs ih => exact ih

lemma set_concat_self {α : Type} (l : List α) (a b : α) :
    (l ++ [a]).set l.length b = l ++ [b] := by
  induction l with
  | nil => rfl
  | cons x xs ih =>
    show x :: (xs ++ [a]).set xs.length b = x :: (xs ++ [b])
    rw [ih]

lemma heapGet_set_self (h : List (List Message)) (r : Nat) (x : List Message)
    (hr : r < h.length) : heapGet (h.set r x) r = x := by
  unfold heapGet
  rw [get?_set_self h r x hr]
  rfl

lemma heapGet_set_ne (h : List (List Message)) (r r' : Nat) (x : List Message)
    (hne : r ≠ r') : heapGet (h.set r' x) r = heapGet h r := by
  unfold heapGet
  rw [get?_set_ne h r r' x hne]

lemma heapGet_append_lt (h h' : List (List Message)) (r : Nat) (hr : r < h.length) :
    heapGet (h ++ h') r = heapGet h r := by
  unfold heapGet
  rw [get?_append_lt h h' r hr]

lemma heapGet_concat_self (h : List (List Message)) (x : List Message) :
    heapGet (h ++ [x]) h.length = x := by
  unfold heapGet
  rw [get?_concat_self]
  rfl

lemma addMessage_absent {threadId : String} {s : ConvState}
    (h : mapLookup threadId s.conversations = none) (role content ts : String) :
    addMessage threadId role content ts s =
      { s with
        conversations := s.conversations ++ [(threadId, s.heap.length)],
        heap := s.heap ++ [trimHistory s.maxHistory [⟨role, content, ts⟩]] } := by
  unfold addMessage
  rw [h]
  simp [heapGet_concat_self, set_concat_self]

lemma addMessage_present {threadId : String} {s : ConvState} {r : Nat}
    (h : mapLookup threadId s.conversations = some r) (role content ts : String) :
    addMessage threadId role content ts s =
      { s with
        heap := s.heap.set r (trimHistory s.maxHistory (heapGet s.heap r ++ [⟨role, content, ts⟩])) } := by
  unfold addMessage
  rw [h]

lemma historyContents_of_none {t : String} {s : ConvState}
    (h : mapLookup t s.conversations = none) : historyContents t s = [] := by
  simp [historyContents, getHistory, h]

lemma historyContents_of_some {t : String} {s : ConvState} {r : Nat}
    (h : mapLookup t s.conversations = some r) : historyContents t s = heapGet s.heap r := by
  simp [historyContents, getHistory, h]

lemma historyContents_addMessage_self (s : ConvState) (hwf : WF s) (t role content ts : String) :
    historyContents t (addMessage t role content ts s) =
      trimHistory s.maxHistory (historyContents t s ++ [⟨role, content, ts⟩]) := by
  cases h : mapLookup t s.conversations with
  | none =>
    rw [addMessage_absent h, historyContents_of_none h]
    have hlk : mapLookup t (s.conversations ++ [(t, s.heap.length)]) = some s.heap.length := by
      rw [mapLookup_append_of_none _ h, mapLookup_singleton_self]
    have h1 : historyContents t
        { s with
          conversations := s.conversations ++ [(t, s.heap.length)],
          heap := s.heap ++ [trimHistory s.maxHistory [⟨role, content, ts⟩]] } =
        heapGet (s.heap ++ [trimHistory s.maxHistory [⟨role, content, ts⟩]]) s.heap.length :=
      historyContents_of_some hlk
    rw [h1, heapGet_concat_self]
    simp
  | some r =>
    have hr : r < s.heap.length := hwf.1 _ (mapLookup_mem h)
    rw [addMessage_present h]
    have h1 : historyContents t
        { s with
          heap := s.heap.set r (trimHistory s.maxHistory (heapGet s.heap r ++ [⟨role, content, ts⟩])) } =
        heapGet (s.heap.set r (trimHistory s.maxHistory (heapGet s.heap r ++ [⟨role, content, ts⟩]))) r :=
      historyContents_of_some h
    rw [h1, heapGet_set_self _ _ _ hr, historyContents_of_some h]

lemma lookup_refs_ne {s : ConvState} (hwf : WF s) {A B : String} {rA rB : Nat}
    (hA : mapLookup A s.conversations = some rA) (hB : mapLookup B s.conversations = some rB)
    (hne : A ≠ B) : rA ≠ rB := by
  have hmA := mapLookup_mem hA
  have hmB := mapLookup_mem hB
  have hsym : Symmetric (fun (p q : String × Nat) => p.1 ≠ q.1 ∧ p.2 ≠ q.2) := by
    intro p q hpq
    exact ⟨hpq.1.symm, hpq.2.symm⟩
  have hpe : ((A, rA) : String × Nat) ≠ (B, rB) := by
    intro hcontra
    exact hne (congrArg Prod.fst hcontra)
  exact (List.Pairwise.forall hsym hwf.2 hmA hmB hpe).2

lemma historyContents_addMessage_other {s : ConvState} (hwf : WF s) {A B : String}
    (hne : A ≠ B) (role content ts : String) :
    historyContents B (addMessage A role content ts s) = historyContents B s := by
  cases h : mapLookup A s.conversations with
  | none =>
    rw [addMessage_absent h]
    have hsingle : mapLookup B [(A, s.heap.length)] = none := by
      show (if A = B then some s.heap.length else mapLookup B []) = none
      rw [if_neg hne]
      rfl
    cases hB : mapLookup B s.conversations with
    | none =>
      rw [historyContents_of_none hB]
      apply historyContents_of_none
      show mapLookup B (s.conversations ++ [(A, s.heap.length)]) = none
      rw [mapLookup_append_of_none _ hB, hsingle]
    | some rB =>
      have hrB : rB < s.heap.length := hwf.1 _ (mapLookup_mem hB)
      rw [historyContents_of_some hB]
      have hlk : mapLookup B (s.conversations ++ [(A, s.heap.length)]) = some rB :=
        mapLookup_append_of_some _ hB
      have h1 : historyContents B
          { s with
            conversations := s.conversations ++ [(A, s.heap.length)],
            heap := s.heap ++ [trimHistory s.maxHistory [⟨role, content, ts⟩]] } =
          heapGet (s.heap ++ [trimHistory s.maxHistory [⟨role, content, ts⟩]]) rB :=
        historyContents_of_some hlk
      rw [h1, heapGet_append_lt _ _ _ hrB]
  | some rA =>
    rw [addMessage_present h]
    cases hB : mapLookup B s.conversations with
    | none =>
      rw [historyContents_of_none hB]
      exact historyContents_of_none hB
    | some rB =>
      have hAB : rA ≠ rB := lookup_refs_ne hwf h hB hne
      rw [historyContents_of_some hB]
      have h1 : historyContents B
          { s with
            heap := s.heap.set rA (trimHistory s.maxHistory (heapGet s.heap rA ++ [⟨role, content, ts⟩])) } =
          heapGet (s.heap.set rA (trimHistory s.maxHistory (heapGet s.heap rA ++ [⟨role, content, ts⟩]))) rB :=
        historyContents_of_some hB
      rw [h1, heapGet_set_ne _ _ _ _ (Ne.symm hAB)]

lemma wf_mk (maxH : Nat) : WF (mkConversationManager maxH) := by
  constructor
  · intro p hp
    simp [mkConversationManager] at hp
  · simp [mkConversationManager]

lemma wf_addMessage {s : ConvState} (hwf : WF s) (threadId role content ts : String) :
    WF (addMessage threadId role content ts s) := by
  cases h : mapLookup threadId s.conversations with
  | none =>
    rw [addMessage_absent h]
    constructor
    · intro p hp
      rcases List.mem_append.mp hp with hmem | hmem
      · have hlt := hwf.1 p hmem
        simp only [List.length_append, List.length_cons, List.length_nil]
        omega
      · have hpe : p = (threadId, s.heap.length) := by simpa using hmem
        subst hpe
        simp only [List.length_append, List.length_cons, List.length_nil]
        omega
    · apply List.pairwise_append.mpr
      refine ⟨hwf.2, by simp, ?_⟩
      intro p hp q hq
      simp only [List.mem_singleton] at hq
      subst hq
      refine ⟨mapLookup_eq_none_forall h p hp, ?_⟩
      have := hwf.1 p hp
      omega
  | some r =>
    rw [addMessage_present h]
    constructor
    · intro p hp
      have := hwf.1 p hp
      simpa [List.length_set] using this
    · exact hwf.2

lemma wf_clearHistory {s : ConvState} (hwf : WF s) (threadId : String) :
    WF (clearHistory threadId s) := by
  constructor
  · intro p hp
    exact hwf.1 p (List.mem_of_mem_filter hp)
  · exact List.Pairwise.sublist (List.filter_sublist _) hwf.2

lemma wf_appendMessages {s : ConvState} (hwf : WF s) (t : String) (msgs : List Message) :
    WF (appendMessages t msgs s) := by
  induction msgs generalizing s with
  | nil => exact hwf
  | cons m rest ih =>
    exact ih (wf_addMessage hwf t m.role m.content m.timestamp)

lemma mapLookup_filter_self (t : String) (l : List (String × Nat)) :
    mapLookup t (l.filter (fun p => p.1 != t)) = none := by
  induction l with
  | nil => rfl
  | cons p rest ih =>
    by_cases hp : p.1 = t
    · simp only [List.filter_cons, hp, bne_self_eq_false]
      exact ih
    · simp only [List.filter_cons, bne_iff_ne, ne_eq, hp, not_false_eq_true, if_true]
      simp only [mapLookup, hp, if_false]
      exact ih

lemma filter_eq_self_of_none {t : String} {l : List (String × Nat)}
    (h : mapLookup t l = none) : l.filter (fun p => p.1 != t) = l := by
  induction l with
  | nil => rfl
  | cons p rest ih =>
    by_cases hp : p.1 = t
    · simp [mapLookup, hp] at h
    · simp only [mapLookup, hp, if_false] at h
      simp only [List.filter_cons, bne_iff_ne, ne_eq, hp, not_false_eq_true, if_true]
      rw [ih h]

lemma appendMessages_concat (t : String) (msgs : List Message) (m : Message) (s : ConvState) :
    appendMessages t (msgs ++ [m]) s =
      addMessage t m.role m.content m.timestamp (appendMessages t msgs s) := by
  simp [appendMessages, List.foldl_append]

lemma addMessage_maxHistory (threadId role content ts : String) (s : ConvState) :
    (addMessage threadId role content ts s).maxHistory = s.maxHistory := by
  cases h : mapLookup threadId s.conversations with
  | none => rw [addMessage_absent h]
  | some r => rw [addMessage_present h]

lemma clearHistory_maxHistory (threadId : String) (s : ConvState) :
    (clearHistory threadId s).maxHistory = s.maxHistory := rfl

lemma appendMessages_maxHistory {t : String} {msgs : List Message} {s : ConvState} :
    (appendMessages t msgs s).maxHistory = s.maxHistory := by
  induction msgs generalizing s with
  | nil => rfl
  | cons x xs ihx =>
    show (appendMessages t xs (addMessage t x.role x.content x.timestamp s)).maxHistory = s.maxHistory
    rw [ihx, addMessage_maxHistory]

lemma trim_drop_step (maxH : Nat) (l : List Message) (m : Message) :
    trimHistory maxH (l.drop (l.length - maxH) ++ [m]) = (l ++ [m]).drop (l.length + 1 - maxH) := by
  rcases le_or_lt maxH l.length with hle | hlt
  · have hdlen : (l.drop (l.length - maxH)).length = maxH := by
      simp only [List.length_drop]
      omega
    unfold trimHistory
    rw [if_pos (by simp only [List.length_append, hdlen, List.length_cons, List.length_nil]; omega)]
    rcases Nat.eq_zero_or_pos maxH with h0 | hpos
    · subst h0
      have h1 : l.drop (l.length - 0) = [] := by
        simp [List.drop_length]
      rw [h1]
      have h2 : l.length + 1 - 0 = (l ++ [m]).length := by simp
      rw [h2, List.drop_length]
      rfl
    · have h1 : (1 : Nat) ≤ (l.drop (l.length - maxH)).length := by omega
      rw [List.drop_append_of_le_length h1]
      have h2 : l.length + 1 - maxH ≤ l.length := by omega
      rw [List.drop_append_of_le_length h2]
      congr 1
      rw [List.drop_drop]
      congr 1
      omega
  · have h0 : l.length - maxH = 0 := by omega
    rw [h0, List.drop_zero]
    have h1 : l.length + 1 - maxH = 0 := by omega
    rw [h1, List.drop_zero]
    unfold trimHistory
    rw [if_neg (by simp only [List.length_append, List.length_cons, List.length_nil]; omega)]

lemma appendMessages_contents (maxH : Nat) (t : String) (msgs : List Message) :
    historyContents t (appendMessages t msgs (mkConversationManager maxH)) =
      msgs.drop (msgs.length - maxH) := by
  induction msgs using List.reverseRecOn with
  | nil =>
    simp [appendMessages, historyContents, getHistory, mkConversationManager, mapLookup]
  | append_singleton l m ih =>
    rw [appendMessages_concat]
    have hwf : WF (appendMessages t l (mkConversationManager maxH)) :=
      wf_appendMessages (wf_mk maxH) t l
    rw [historyContents_addMessage_self _ hwf]
    rw [appendMessages_maxHistory, ih]
    have harith : (l ++ [m]).length - maxH = l.length + 1 - maxH := by
      simp [List.length_append]
    rw [harith]
    exact trim_drop_step maxH l m

lemma trimHistory_length_le (maxH : Nat) (arr : List Message) (h : arr.length ≤ maxH + 1) :
    (trimHistory maxH arr).length ≤ maxH := by
  unfold trimHistory
  split
  · simp only [List.length_drop]
    omega
  · omega

lemma heapGet_length_le {h : List (List Message)} {maxH : Nat}
    (hb : ∀ arr ∈ h, arr.length ≤ maxH) (r : Nat) : (heapGet h r).length ≤ maxH := by
  unfold heapGet
  cases hg : h.get? r with
  | none => simp
  | some arr =>
    have := hb arr (List.get?_mem hg)
    simpa using this

lemma addMessage_bounded {s : ConvState} (hb : ∀ arr ∈ s.heap, arr.length ≤ s.maxHistory)
    (threadId role content ts : String) :
    ∀ arr ∈ (addMessage threadId role content ts s).heap, arr.length ≤ s.maxHistory := by
  intro arr harr
  cases h : mapLookup threadId s.conversations with
  | none =>
    rw [addMessage_absent h] at harr
    rcases List.mem_append.mp harr with hmem | hmem
    · exact hb arr hmem
    · have harr2 : arr = trimHistory s.maxHistory [⟨role, content, ts⟩] := by simpa using hmem
      subst harr2
      exact trimHistory_length_le _ _ (by simp)
  | some r =>
    rw [addMessage_present h] at harr
    rcases List.mem_or_eq_of_mem_set harr with hmem | heq
    · exact hb arr hmem
    · subst heq
      apply trimHistory_length_le
      have := heapGet_length_le hb r
      simp only [List.length_append, List.length_cons, List.length_nil]
      omega

lemma execOps_bounded (ops : List StoreOp) :
    ∀ s : ConvState, (∀ arr ∈ s.heap, arr.length ≤ s.maxHistory) →
      (execOps ops s).maxHistory = s.maxHistory ∧
      ∀ arr ∈ (execOps ops s).heap, arr.length ≤ s.maxHistory := by
  induction ops with
  | nil => exact fun s hb => ⟨rfl, hb⟩
  | cons op rest ih =>
    intro s hb
    cases op with
    | add threadId role content ts =>
      have hstep := addMessage_bounded hb threadId role content ts
      have hmax := addMessage_maxHistory threadId role content ts s
      have := ih (addMessage threadId role content ts s) (by rw [hmax]; exact hstep)
      show (execOps rest (addMessage threadId role content ts s)).maxHistory = s.maxHistory ∧ _
      rw [this.1, hmax]
      exact ⟨rfl, by rw [← hmax]; exact this.2⟩
    | clear threadId =>
      have := ih (clearHistory threadId s) hb
      show (execOps rest (clearHistory threadId s)).maxHistory = s.maxHistory ∧ _
      rw [this.1]
      exact ⟨rfl, this.2⟩

lemma historyContents_length_le {s : ConvState} (hb : ∀ arr ∈ s.heap, arr.length ≤ s.maxHistory)
    (t : String) : (historyContents t s).length ≤ s.maxHistory := by
  unfold historyContents
  cases getHistory t s with
  | none => simp
  | some r => exact heapGet_length_le hb r

/-! ### Lemmas about the streaming loop -/

lemma string_append_empty (s : String) : s ++ "" = s := by
  simp

lemma string_empty_append (s : String) : "" ++ s = s := by
  simp

lemma sinkTexts_append (a b : List SinkEvent) :
    sinkTexts (a ++ b) = sinkTexts a ++ sinkTexts b := by
  simp [sinkTexts, List.filterMap_append]

lemma paramsEvents_append (a b : List SinkEvent) :
    paramsEvents (a ++ b) = paramsEvents a ++ paramsEvents b := by
  simp [paramsEvents, List.filterMap_append]

lemma sinkTexts_callingFunction (n : Option String) : sinkTexts [.callingFunction n] = [] := rfl

lemma sinkTexts_functionParams (j : Json) : sinkTexts [.functionParams j] = [] := rfl

lemma paramsEvents_callingFunction (n : Option String) : paramsEvents [.callingFunction n] = [] := rfl

lemma initSlot_fullResponse (st : LoopState) (d : ToolCallDelta) (f : FunctionDelta) :
    (initSlot st d f).fullResponse = st.fullResponse := by
  unfold initSlot
  split <;> rfl

lemma initSlot_usageInfo (st : LoopState) (d : ToolCallDelta) (f : FunctionDelta) :
    (initSlot st d f).usageInfo = st.usageInfo := by
  unfold initSlot
  split <;> rfl

lemma initSlot_sinkTexts (st : LoopState) (d : ToolCallDelta) (f : FunctionDelta) :
    sinkTexts (initSlot st d f).sink = sinkTexts st.sink := by
  unfold initSlot
  split
  · show sinkTexts (st.sink ++ [.callingFunction f.name]) = sinkTexts st.sink
    rw [sinkTexts_append, sinkTexts_callingFunction, List.append_nil]
  · rfl

lemma initSlot_paramsEvents (st : LoopState) (d : ToolCallDelta) (f : FunctionDelta) :
    paramsEvents (initSlot st d f).sink = paramsEvents st.sink := by
  unfold initSlot
  split
  · show paramsEvents (st.sink ++ [.callingFunction f.name]) = paramsEvents st.sink
    rw [paramsEvents_append, paramsEvents_callingFunction, List.append_nil]
  · rfl

lemma processToolDelta_obs {st st' : LoopState} {d : ToolCallDelta}
    (h : processToolDelta st d = .ok st') :
    st'.fullResponse = st.fullResponse ∧ st'.usageInfo = st.usageInfo ∧
    sinkTexts st'.sink = sinkTexts st.sink := by
  unfold processToolDelta at h
  split at h
  · -- d.fn = none
    cases h
    exact ⟨rfl, rfl, rfl⟩
  · -- d.fn = some f
    rename_i f hfn
    split at h
    · -- f.arguments = some a
      rename_i a ha
      split at h
      · -- a is a non-empty fragment
        dsimp only at h
        split at h
        · exact Except.noConfusion h
        · rename_i old hold
          split at h
          · rename_i j hj
            cases h
            refine ⟨initSlot_fullResponse st d f, initSlot_usageInfo st d f, ?_⟩
            show sinkTexts ((initSlot st d f).sink ++ [.functionParams j]) = sinkTexts st.sink
            rw [sinkTexts_append, sinkTexts_functionParams, List.append_nil, initSlot_sinkTexts]
          · cases h
            exact ⟨initSlot_fullResponse st d f, initSlot_usageInfo st d f, initSlot_sinkTexts st d f⟩
      · cases h
        exact ⟨initSlot_fullResponse st d f, initSlot_usageInfo st d f, initSlot_sinkTexts st d f⟩
    · -- f.arguments = none
      cases h
      exact ⟨initSlot_fullResponse st d f, initSlot_usageInfo st d f, initSlot_sinkTexts st d f⟩

lemma runDeltas_obs : ∀ (ds : List ToolCallDelta) (st st' : LoopState),
    runDeltas st ds = .ok st' →
    st'.fullResponse = st.fullResponse ∧ st'.usageInfo = st.usageInfo ∧
    sinkTexts st'.sink = sinkTexts st.sink := by
  intro ds
  induction ds with
  | nil =>
    intro st st' h
    cases h
    exact ⟨rfl, rfl, rfl⟩
  | cons d rest ih =>
    intro st st' h
    unfold runDeltas at h
    cases hd : processToolDelta st d with
    | error e =>
      rw [hd] at h
      exact Except.noConfusion h
    | ok stM =>
      rw [hd] at h
      obtain ⟨h1, h2, h3⟩ := processToolDelta_obs hd
      obtain ⟨h4, h5, h6⟩ := ih stM st' h
      exact ⟨h4.trans h1, h5.trans h2, h6.trans h3⟩

lemma sinkTexts_textChunk (c : String) : sinkTexts [.textChunk c] = [c] := rfl

lemma applyContent_obs (st : LoopState) (content : Option String) :
    (applyContent st content).fullResponse =
      st.fullResponse ++ (match content with | some c => c | none => "") ∧
    (applyContent st content).usageInfo = st.usageInfo ∧
    sinkTexts (applyContent st content).sink =
      sinkTexts st.sink ++ (content.toList.filter (fun s => s != "")) := by
  cases content with
  | none =>
    refine ⟨(string_append_empty _).symm, rfl, ?_⟩
    simp [applyContent, Option.toList]
  | some c =>
    by_cases hce : c = ""
    · subst hce
      have hred : applyContent st (some "") = st := by
        simp [applyContent]
      rw [hred]
      exact ⟨(string_append_empty _).symm, rfl, by simp [Option.toList]⟩
    · have hred : applyContent st (some c) =
          { st with fullResponse := st.fullResponse ++ c, sink := st.sink ++ [.textChunk c] } := by
        simp [applyContent, hce]
      rw [hred]
      refine ⟨rfl, rfl, ?_⟩
      show sinkTexts (st.sink ++ [.textChunk c]) = _
      rw [sinkTexts_append, sinkTexts_textChunk]
      simp [Option.toList, hce]

lemma applyUsage_obs (st : LoopState) (usage : Option Nat) :
    (applyUsage st usage).fullResponse = st.fullResponse ∧
    (applyUsage st usage).functionCalls = st.functionCalls ∧
    sinkTexts (applyUsage st usage).sink = sinkTexts st.sink := by
  cases usage with
  | none => exact ⟨rfl, rfl, rfl⟩
  | some u => exact ⟨rfl, rfl, rfl⟩

lemma processChunk_obs {st st' : LoopState} {ck : StreamChunk}
    (h : processChunk st ck = .ok st') :
    st'.fullResponse = st.fullResponse ++ (match ck.content with | some c => c | none => "") ∧
    sinkTexts st'.sink = sinkTexts st.sink ++ (ck.content.toList.filter (fun s => s != "")) := by
  unfold processChunk at h
  cases hrd : runDeltas (applyContent st ck.content) ck.tool_calls with
  | error e =>
    rw [hrd] at h
    exact Except.noConfusion h
  | ok stM =>
    rw [hrd] at h
    cases h
    obtain ⟨hd1, _, hd3⟩ := runDeltas_obs _ _ _ hrd
    obtain ⟨hc1, _, hc3⟩ := applyContent_obs st ck.content
    obtain ⟨hu1, _, hu3⟩ := applyUsage_obs stM ck.usage
    exact ⟨hu1.trans (hd1.trans hc1), hu3.trans (hd3.trans hc3)⟩

lemma runChunks_text : ∀ (chunks : List StreamChunk) (st st' : LoopState),
    runChunks st chunks = .ok st' →
    st'.fullResponse = st.fullResponse ++ strJoin (textFragments chunks) ∧
    sinkTexts st'.sink = sinkTexts st.sink ++ (textFragments chunks).filter (fun s => s != "") := by
  intro chunks
  induction chunks with
  | nil =>
    intro st st' h
    cases h
    exact ⟨(string_append_empty _).symm, by simp [textFragments]⟩
  | cons ck rest ih =>
    intro st st' h
    unfold runChunks at h
    cases hc : processChunk st ck with
    | error e =>
      rw [hc] at h
      exact Except.noConfusion h
    | ok stM =>
      rw [hc] at h
      obtain ⟨h1, h2⟩ := processChunk_obs hc
      obtain ⟨h3, h4⟩ := ih stM st' h
      constructor
      · rw [h3, h1]
        cases hcc : ck.content with
        | none =>
          simp only [textFragments, List.filterMap_cons, hcc]
          rw [string_append_empty]
        | some c =>
          simp only [textFragments, List.filterMap_cons, hcc]
          show _ = st.fullResponse ++ (c ++ strJoin (rest.filterMap (·.content)))
          rw [← String.append_assoc]
      · rw [h4, h2]
        cases hcc : ck.content with
        | none =>
          simp only [textFragments, List.filterMap_cons, hcc, Option.toList]
          simp
        | some c =>
          simp only [textFragments, List.filterMap_cons, hcc, Option.toList]
          simp [List.filter_cons]
          split <;> simp

lemma processToolDelta_params {st : LoopState} {d : ToolCallDelta} {f : FunctionDelta}
    {a : String} {old : FnCallAcc}
    (hfn : d.fn = some f) (hargs : f.arguments = some a) (ha : a ≠ "")
    (hold : (initSlot st d f).functionCalls.get? d.index = some old) :
    processToolDelta st d =
      .ok { initSlot st d f with
            functionCalls := (initSlot st d f).functionCalls.set d.index
              { old with arguments := old.arguments ++ a },
            sink := (initSlot st d f).sink ++
              ((if endsWithCloser (old.arguments ++ a)
                then jsonParse (old.arguments ++ a) else none).toList.map SinkEvent.functionParams) } := by
  have ha' : (a != "") = true := by simp [ha]
  simp only [processToolDelta, hfn, hargs, ha', if_true, hold]
  cases hp : (if endsWithCloser (old.arguments ++ a) then jsonParse (old.arguments ++ a) else none) with
  | some j => simp
  | none => simp

/-! ### Lemmas about the function-call dispatcher -/

lemma strJoin_append (a b : List String) : strJoin (a ++ b) = strJoin a ++ strJoin b := by
  induction a with
  | nil =>
    rw [List.nil_append]
    exact (string_empty_append _).symm
  | cons s rest ih =>
    show s ++ strJoin (rest ++ b) = (s ++ strJoin rest) ++ strJoin b
    rw [ih, String.append_assoc]

lemma foldCalls_result (vars : List (String × String)) (oracle : DalleOracle) :
    ∀ (fcs : List FnCallAcc) (acc : ExecOutcome),
    (foldCalls vars oracle fcs acc).result =
      acc.result ++ strJoin (fcs.map fun fc => (executeFunctionCall fc vars oracle).result) := by
  intro fcs
  induction fcs with
  | nil =>
    intro acc
    show acc.result = _
    rw [List.map_nil]
    exact (string_append_empty _).symm
  | cons fc rest ih =>
    intro acc
    show (foldCalls vars oracle rest _).result = _
    rw [ih]
    simp only [List.map_cons, strJoin]
    rw [String.append_assoc]

lemma processFunctionCalls_result (fcs : List FnCallAcc) (vars : List (String × String))
    (oracle : DalleOracle) :
    (processFunctionCalls fcs vars oracle).result =
      strJoin (fcs.map fun fc => (executeFunctionCall fc vars oracle).result) := by
  unfold processFunctionCalls
  split
  · rename_i hempty
    rw [List.isEmpty_iff.mp hempty]
    rfl
  · rw [foldCalls_result]
    exact string_empty_append _

lemma processFunctionCalls_mem_split {fcs : List FnCallAcc} {fc : FnCallAcc}
    (vars : List (String × String)) (oracle : DalleOracle) (hmem : fc ∈ fcs) :
    ∃ pre post, (processFunctionCalls fcs vars oracle).result =
      pre ++ ((executeFunctionCall fc vars oracle).result ++ post) := by
  obtain ⟨s, t, rfl⟩ := List.append_of_mem hmem
  refine ⟨strJoin (s.map fun c => (executeFunctionCall c vars oracle).result),
          strJoin (t.map fun c => (executeFunctionCall c vars oracle).result), ?_⟩
  rw [processFunctionCalls_result, List.map_append, strJoin_append, List.map_cons]
  rfl

lemma executeFunctionCall_badJson {fc : FnCallAcc} (vars : List (String × String))
    (oracle : DalleOracle) (hname : fc.name = some "generate_image")
    (hparse : jsonParse fc.arguments = none) :
    (executeFunctionCall fc vars oracle).result = funcExecErrorText jsonParseErrMsg := by
  simp only [executeFunctionCall, hname, if_true, executeGenerateImage, hparse]

lemma executeFunctionCall_unknown {fc : FnCallAcc} (vars : List (String × String))
    (oracle : DalleOracle) (hname : fc.name ≠ some "generate_image") :
    (executeFunctionCall fc vars oracle).result = unknownFunctionText fc.name := by
  simp only [executeFunctionCall, if_neg hname]

lemma executeFunctionCall_oracleError {fc : FnCallAcc} {args : Json} {e : String}
    (vars : List (String × String)) (oracle : DalleOracle)
    (hname : fc.name = some "generate_image") (hargs : jsonParse fc.arguments = some args)
    (hkey : jsTruthyS (varsGet vars "OPENAI_API_KEY") = true)
    (horacle : oracle (jsonGetStr args "prompt") (jsOrS (jsonGetStr args "size") "1024x1024")
        (jsOrS (jsonGetStr args "quality") "standard")
        (jsOrS (jsonGetStr args "style") "vivid") = .error e) :
    (executeFunctionCall fc vars oracle).result =
      funcExecErrorText ("Error generating image with DALL-E: " ++ e) := by
  simp only [executeFunctionCall, hname, if_true, executeGenerateImage, hargs,
    generateImageWithDALLE, hkey, if_true, horacle]

/-! ### Lemmas about `processMessage` -/

lemma processMessage_missingKey {store : ConvState} {data : ChatData}
    (chunks : List StreamChunk) (oracle : DalleOracle) (tsUser tsAssistant : String)
    (hkey : jsTruthyS (varsGet data.vars "OPENAI_API_KEY") = false) :
    processMessage store data chunks oracle tsUser tsAssistant =
      { sink := [.textChunk missingKeyMsg],
        completion := .complete missingKeyMsg none none,
        store := store } := by
  simp [processMessage, hkey]

lemma processMessage_ok {store : ConvState} {data : ChatData} {chunks : List StreamChunk}
    {ls : LoopState} (oracle : DalleOracle) (tsUser tsAssistant : String)
    (hkey : jsTruthyS (varsGet data.vars "OPENAI_API_KEY") = true)
    (hrun : runStreamLoop chunks = .ok ls) :
    processMessage store data chunks oracle tsUser tsAssistant =
      { sink := ls.sink ++ (processFunctionCalls ls.functionCalls data.vars oracle).sink,
        completion := .complete
          (if (processFunctionCalls ls.functionCalls data.vars oracle).result != ""
           then ls.fullResponse ++ (processFunctionCalls ls.functionCalls data.vars oracle).result
           else ls.fullResponse)
          ls.usageInfo
          (if jsTruthyS (processFunctionCalls ls.functionCalls data.vars oracle).fileUrl
           then (processFunctionCalls ls.functionCalls data.vars oracle).fileUrl else none),
        store := addMessage data.thread_id "assistant"
          (if (processFunctionCalls ls.functionCalls data.vars oracle).result != ""
           then ls.fullResponse ++ (processFunctionCalls ls.functionCalls data.vars oracle).result
           else ls.fullResponse)
          tsAssistant (addMessage data.thread_id "user" data.message tsUser store) } := by
  simp only [processMessage, hkey, if_true, hrun]
  by_cases hfu : jsTruthyS (processFunctionCalls ls.functionCalls data.vars oracle).fileUrl
  · simp [hfu]
  · simp [hfu]

lemma foldl_push_map (history : List Message) (init : List OpenAIMessage) :
    history.foldl (fun acc msg => acc ++ [(⟨msg.role, msg.content⟩ : OpenAIMessage)]) init =
      init ++ (history.map fun msg => (⟨msg.role, msg.content⟩ : OpenAIMessage)) := by
  induction history generalizing init with
  | nil => simp
  | cons m rest ih =>
    show rest.foldl _ (init ++ [(⟨m.role, m.content⟩ : OpenAIMessage)]) = _
    rw [ih]
    simp

/-! ### Claim theorems -/

/-- C1 (amended): for every store constructed with capacity `maxHistory` and
every key, after `maxHistory + k` appends to that key the history has length
exactly `min maxHistory (maxHistory + k)` and equals the
`min maxHistory (maxHistory + k)` most recent appended messages in
chronological order (not the `k` most recent, which is impossible for
`k > maxHistory`); after every mutation the length never exceeds
`maxHistory`; and when an append would exceed the bound the oldest message
is evicted, never the newest. -/
theorem c1_bounded_fifo_history :
    (∀ (maxH k : Nat) (t : String) (msgs : List Message), msgs.length = maxH + k →
      historyContents t (appendMessages t msgs (mkConversationManager maxH)) = msgs.drop k ∧
      (historyContents t (appendMessages t msgs (mkConversationManager maxH))).length =
        min maxH (maxH + k)) ∧
    (∀ (maxH : Nat) (ops : List StoreOp) (t : String),
      (historyContents t (execOps ops (mkConversationManager maxH))).length ≤ maxH) ∧
    (∀ (s : ConvState) (t role content ts : String), WF s →
      (historyContents t s).length = s.maxHistory → 0 < s.maxHistory →
      historyContents t (addMessage t role content ts s) =
        (historyContents t s).drop 1 ++ [⟨role, content, ts⟩]) := by
  refine ⟨?_, ?_, ?_⟩
  · intro maxH k t msgs hlen
    have hc := appendMessages_contents maxH t msgs
    have hk : msgs.length - maxH = k := by omega
    rw [hk] at hc
    refine ⟨hc, ?_⟩
    rw [hc]
    simp only [List.length_drop]
    omega
  · intro maxH ops t
    obtain ⟨hm, hb⟩ := execOps_bounded ops (mkConversationManager maxH)
      (by intro arr harr; simp [mkConversationManager] at harr)
    have hlen := historyContents_length_le
      (s := execOps ops (mkConversationManager maxH)) (by rw [hm]; exact hb) t
    rw [hm] at hlen
    exact hlen
  · intro s t role content ts hwf hfull hpos
    rw [historyContents_addMessage_self s hwf t role content ts]
    unfold trimHistory
    rw [if_pos (by simp only [List.length_append, hfull, List.length_cons, List.length_nil]; omega)]
    rw [List.drop_append_of_le_length (by omega)]

/-- C1 counterexample: with capacity 1 and `1 + 2` appends, the history is
`[m3]`, so it cannot contain the 2 most recent appended messages (`m2` is
gone) although the claim as stated requires it for every `k ≥ 0`. -/
theorem c1_counterexample :
    historyContents "t" (appendMessages "t" [m1, m2, m3] (mkConversationManager 1)) = [m3] ∧
    m2 ∉ historyContents "t" (appendMessages "t" [m1, m2, m3] (mkConversationManager 1)) := by
  decide

/-- C1 witness: capacity 2, three appends keep the 2 most recent; a bounded
run of ops; and a full buffer evicting its oldest entry. -/
theorem c1_witness :
    (historyContents "t" (appendMessages "t" [m1, m2, m3] (mkConversationManager 2)) = [m2, m3] ∧
      (historyContents "t" (appendMessages "t" [m1, m2, m3] (mkConversationManager 2))).length =
        min 2 3) ∧
    (historyContents "x" (execOps [StoreOp.add "x" "user" "a" "t1", StoreOp.add "x" "user" "b" "t2"]
        (mkConversationManager 2))).length ≤ 2 ∧
    historyContents "t" (addMessage "t" "user" "c" "t3" evictStore) =
      (historyContents "t" evictStore).drop 1 ++ [⟨"user", "c", "t3"⟩] :=
  ⟨c1_bounded_fifo_history.1 2 1 "t" [m1, m2, m3] rfl,
   c1_bounded_fifo_history.2.1 2 [StoreOp.add "x" "user" "a" "t1", StoreOp.add "x" "user" "b" "t2"] "x",
   c1_bounded_fifo_history.2.2 evictStore "t" "user" "c" "t3"
     (wf_appendMessages (wf_mk 2) "t" [m1, m2]) (by decide) (by decide)⟩

/-- C2 (amended): a tool-call slot whose accumulated argument text is not
parseable at stream exhaustion does NOT fail the request through the error
path: the invocation fails individually, its failure text is folded into the
response, and the request completes through the normal completion call with
the other results. The invocation is not silently dropped — its error text
appears in the completed response. -/
theorem c2_unparseable_args_request_outcome (store : ConvState) (data : ChatData)
    (chunks : List StreamChunk) (oracle : DalleOracle) (tsUser tsAssistant : String)
    (ls : LoopState)
    (hkey : jsTruthyS (varsGet data.vars "OPENAI_API_KEY") = true)
    (hrun : runStreamLoop chunks = .ok ls) :
    (processMessage store data chunks oracle tsUser tsAssistant).completion =
      .complete
        (if (processFunctionCalls ls.functionCalls data.vars oracle).result != ""
         then ls.fullResponse ++ (processFunctionCalls ls.functionCalls data.vars oracle).result
         else ls.fullResponse)
        ls.usageInfo
        (if jsTruthyS (processFunctionCalls ls.functionCalls data.vars oracle).fileUrl
         then (processFunctionCalls ls.functionCalls data.vars oracle).fileUrl else none) ∧
    (∀ fc ∈ ls.functionCalls, fc.name = some "generate_image" →
      jsonParse fc.arguments = none →
      ∃ pre post, (processFunctionCalls ls.functionCalls data.vars oracle).result =
        pre ++ (funcExecErrorText jsonParseErrMsg ++ post)) := by
  constructor
  · rw [processMessage_ok oracle tsUser tsAssistant hkey hrun]
  · intro fc hmem hname hparse
    obtain ⟨pre, post, hsplit⟩ := processFunctionCalls_mem_split data.vars oracle hmem
    refine ⟨pre, post, ?_⟩
    rw [← executeFunctionCall_badJson data.vars oracle hname hparse]
    exact hsplit

/-- C2 counterexample: a stream whose only tool call accumulates the
unparseable argument text of one opening brace; `processMessage` completes
normally through `completeResponse` with the error text as the response —
the request does not fail through the error path. -/
theorem c2_counterexample :
    (processMessage (mkConversationManager 10) c2exData badJsonChunks okOracle "u1" "a1").completion =
      .complete (funcExecErrorText jsonParseErrMsg) none none := rfl

/-- C2 witness: the amended theorem instantiated on the concrete
unparseable-argument stream. -/
theorem c2_witness :
    (processMessage (mkConversationManager 10) c2exData badJsonChunks okOracle "u1" "a1").completion =
      .complete
        (if (processFunctionCalls [⟨some "c1", some "generate_image", "\x7b"⟩] c2exData.vars okOracle).result != ""
         then "" ++ (processFunctionCalls [⟨some "c1", some "generate_image", "\x7b"⟩] c2exData.vars okOracle).result
         else "")
        none
        (if jsTruthyS (processFunctionCalls [⟨some "c1", some "generate_image", "\x7b"⟩] c2exData.vars okOracle).fileUrl
         then (processFunctionCalls [⟨some "c1", some "generate_image", "\x7b"⟩] c2exData.vars okOracle).fileUrl
         else none) :=
  (c2_unparseable_args_request_outcome (mkConversationManager 10) c2exData badJsonChunks okOracle
    "u1" "a1"
    ⟨"", none, [⟨some "c1", some "generate_image", "\x7b"⟩],
     [.callingFunction (some "generate_image")]⟩ rfl rfl).1

/-- C3 (amended): after an argument fragment is appended, the "current
parameters so far" notification fires if and only if the accumulated text
ends in a quote, closing brace or closing bracket AND parses as a complete
value — not merely iff the parse succeeds (for accumulated text `true` the
parse succeeds but the suffix check suppresses the notification).  The
spec's two-fragment example behaves as stated: no notification after
`{"a":`, exactly one after `1}`, and the slot finalizes to arguments
`{a : 1}`. -/
theorem c3_progress_notification :
    (∀ (st : LoopState) (d : ToolCallDelta) (f : FunctionDelta) (a : String) (old : FnCallAcc),
      d.fn = some f → f.arguments = some a → a ≠ "" →
      (initSlot st d f).functionCalls.get? d.index = some old →
      ∃ st', processToolDelta st d = .ok st' ∧
        paramsEvents st'.sink = paramsEvents st.sink ++
          ((if endsWithCloser (old.arguments ++ a)
            then jsonParse (old.arguments ++ a) else none).toList) ∧
        (paramsEvents st'.sink ≠ paramsEvents st.sink ↔
          endsWithCloser (old.arguments ++ a) = true ∧
            (jsonParse (old.arguments ++ a)).isSome = true)) ∧
    runStreamLoop exampleToolChunks =
      .ok { fullResponse := "", usageInfo := none,
            functionCalls := [⟨some "c1", some "t", "\x7b\x22a\x22:1\x7d"⟩],
            sink := [.callingFunction (some "t"),
                     .functionParams (Json.obj [("a", Json.num "1")])] } ∧
    jsonParse "\x7b\x22a\x22:1\x7d" = some (Json.obj [("a", Json.num "1")]) ∧
    jsonParse "\x7b\x22a\x22:" = none := by
  refine ⟨?_, rfl, rfl, rfl⟩
  intro st d f a old hfn hargs ha hold
  refine ⟨_, processToolDelta_params hfn hargs ha hold, ?_, ?_⟩
  · show paramsEvents ((initSlot st d f).sink ++
        ((if endsWithCloser (old.arguments ++ a)
          then jsonParse (old.arguments ++ a) else none).toList.map SinkEvent.functionParams)) = _
    rw [paramsEvents_append, initSlot_paramsEvents]
    congr 1
    cases (if endsWithCloser (old.arguments ++ a) then jsonParse (old.arguments ++ a) else none) with
    | some j => rfl
    | none => rfl
  · show paramsEvents ((initSlot st d f).sink ++
        ((if endsWithCloser (old.arguments ++ a)
          then jsonParse (old.arguments ++ a) else none).toList.map SinkEvent.functionParams)) ≠
        paramsEvents st.sink ↔ _
    rw [paramsEvents_append, initSlot_paramsEvents]
    cases hc : endsWithCloser (old.arguments ++ a) with
    | false => simp [hc, paramsEvents]
    | true =>
      cases hj : jsonParse (old.arguments ++ a) with
      | some j => simp [paramsEvents]
      | none => simp [hj, paramsEvents]

/-- C3 counterexample: the single fragment `true` makes the accumulated
argument text a complete parseable value, yet no progress notification is
forwarded (the suffix pre-check fails), refuting the "iff the parse
succeeds" claim. -/
theorem c3_counterexample :
    runStreamLoop trueToolChunks =
      .ok { fullResponse := "", usageInfo := none,
            functionCalls := [⟨some "c1", some "t", "true"⟩],
            sink := [.callingFunction (some "t")] } ∧
    (jsonParse "true").isSome = true := ⟨rfl, rfl⟩

/-- C3 witness: the amended theorem instantiated on a delta carrying the
fragment `true`. -/
theorem c3_witness :
    ∃ st', processToolDelta initLoopState ⟨0, some "c1", some ⟨some "t", some "true"⟩⟩ = .ok st' ∧
      paramsEvents st'.sink = paramsEvents initLoopState.sink ++
        ((if endsWithCloser (("" : String) ++ "true")
          then jsonParse (("" : String) ++ "true") else none).toList) ∧
      (paramsEvents st'.sink ≠ paramsEvents initLoopState.sink ↔
        endsWithCloser (("" : String) ++ "true") = true ∧
          (jsonParse (("" : String) ++ "true")).isSome = true) :=
  c3_progress_notification.1 initLoopState ⟨0, some "c1", some ⟨some "t", some "true"⟩⟩
    ⟨some "t", some "true"⟩ "true" ⟨some "c1", some "t", ""⟩ rfl rfl (by decide) rfl

/-- C4 (amended): `getHistory` returns the store's internal array by
reference for a known key, so a caller mutating the returned sequence DOES
change the store: after pushing `m` through the returned reference, a
subsequent `getHistory` on the untouched store shows the extra message.
There is no copy-on-read isolation. -/
theorem c4_history_alias (s : ConvState) (t : String) (r : Nat) (m : Message)
    (hwf : WF s) (hget : getHistory t s = some r) :
    historyContents t (callerPush r m s) = historyContents t s ++ [m] := by
  have hr : r < s.heap.length := hwf.1 _ (mapLookup_mem hget)
  have h2 : historyContents t (callerPush r m s) =
      heapGet (s.heap.set r (heapGet s.heap r ++ [m])) r := historyContents_of_some hget
  rw [h2, heapGet_set_self _ _ _ hr, historyContents_of_some hget]

/-- C4 counterexample: pushing onto the array returned by `getHistory "t"`
changes what the store subsequently reports for "t", refuting the claimed
isolation. -/
theorem c4_counterexample :
    getHistory "t" c4store = some 0 ∧
    historyContents "t" (callerPush 0 ⟨"user", "injected", "ts2"⟩ c4store) ≠
      historyContents "t" c4store := by
  decide

/-- C4 witness: the amended theorem on the concrete one-message store. -/
theorem c4_witness :
    historyContents "t" (callerPush 0 ⟨"user", "injected", "ts2"⟩ c4store) =
      historyContents "t" c4store ++ [⟨"user", "injected", "ts2"⟩] :=
  c4_history_alias c4store "t" 0 ⟨"user", "injected", "ts2"⟩
    (wf_addMessage (wf_mk 10) "t" "user" "hi" "ts1") rfl

/-- C5 (amended): for every event sequence the assembler completes on, the
assembled `fullText` equals the concatenation of all TextDelta fragments in
arrival order, and exactly the NON-EMPTY fragments are forwarded to the
sink, once each, in arrival order; an empty fragment is skipped by the
truthiness check and never forwarded (it also leaves fullText unchanged).
The `Hello `/`world` example behaves exactly as the claim states. -/
theorem c5_text_assembly (chunks : List StreamChunk) (ls : LoopState)
    (hrun : runStreamLoop chunks = .ok ls) :
    ls.fullResponse = strJoin (textFragments chunks) ∧
    sinkTexts ls.sink = (textFragments chunks).filter (fun s => s != "") ∧
    runStreamLoop helloChunks =
      .ok { fullResponse := "Hello world", usageInfo := none, functionCalls := [],
            sink := [.textChunk "Hello ", .textChunk "world"] } := by
  obtain ⟨h1, h2⟩ := runChunks_text chunks initLoopState ls hrun
  refine ⟨?_, ?_, rfl⟩
  · rw [h1]
    exact string_empty_append _
  · exact h2

/-- C5 counterexample: the event sequence consisting of the single fragment
`TextDelta("")` yields an assembler state whose sink is empty — the empty
fragment is not forwarded even once, refuting "each fragment is forwarded
to the sink exactly once". -/
theorem c5_counterexample :
    runStreamLoop [emptyFragmentChunk] = .ok initLoopState ∧
    textFragments [emptyFragmentChunk] = [""] := ⟨rfl, rfl⟩

/-- C5 witness: the amended theorem instantiated on the Hello-world
stream. -/
theorem c5_witness :
    (⟨"Hello world", none, [], [.textChunk "Hello ", .textChunk "world"]⟩ : LoopState).fullResponse =
      strJoin (textFragments helloChunks) ∧
    sinkTexts (⟨"Hello world", none, [], [.textChunk "Hello ", .textChunk "world"]⟩ : LoopState).sink =
      (textFragments helloChunks).filter (fun s => s != "") ∧
    runStreamLoop helloChunks =
      .ok { fullResponse := "Hello world", usageInfo := none, functionCalls := [],
            sink := [.textChunk "Hello ", .textChunk "world"] } :=
  c5_text_assembly helloChunks
    ⟨"Hello world", none, [], [.textChunk "Hello ", .textChunk "world"]⟩ rfl

/-- C6: the failure of one tool invocation is contained to that invocation:
the combined result is always the concatenation of every invocation's own
result in order (no failure aborts the siblings or the overall response),
the failing invocation's text appears inside the combined result, and in
each failure mode (unparseable arguments, unknown function name, image
endpoint error) that text is the corresponding visible error message. -/
theorem c6_tool_failure_contained (fcs : List FnCallAcc) (vars : List (String × String))
    (oracle : DalleOracle) (fc : FnCallAcc) (hmem : fc ∈ fcs) :
    (processFunctionCalls fcs vars oracle).result =
      strJoin (fcs.map fun c => (executeFunctionCall c vars oracle).result) ∧
    (∃ pre post, (processFunctionCalls fcs vars oracle).result =
      pre ++ ((executeFunctionCall fc vars oracle).result ++ post)) ∧
    (fc.name = some "generate_image" → jsonParse fc.arguments = none →
      (executeFunctionCall fc vars oracle).result = funcExecErrorText jsonParseErrMsg) ∧
    (fc.name ≠ some "generate_image" →
      (executeFunctionCall fc vars oracle).result = unknownFunctionText fc.name) ∧
    (∀ (args : Json) (e : String), fc.name = some "generate_image" →
      jsonParse fc.arguments = some args →
      jsTruthyS (varsGet vars "OPENAI_API_KEY") = true →
      oracle (jsonGetStr args "prompt") (jsOrS (jsonGetStr args "size") "1024x1024")
        (jsOrS (jsonGetStr args "quality") "standard")
        (jsOrS (jsonGetStr args "style") "vivid") = .error e →
      (executeFunctionCall fc vars oracle).result =
        funcExecErrorText ("Error generating image with DALL-E: " ++ e)) :=
  ⟨processFunctionCalls_result fcs vars oracle,
   processFunctionCalls_mem_split vars oracle hmem,
   fun hname hparse => executeFunctionCall_badJson vars oracle hname hparse,
   fun hname => executeFunctionCall_unknown vars oracle hname,
   fun _ _ hname hargs hkey horacle =>
     executeFunctionCall_oracleError vars oracle hname hargs hkey horacle⟩

/-- C6 witness: a list with one bad-JSON invocation and one unknown
function: the combined result is the concatenation of both results, and the
failing call's visible error text is as characterized. -/
theorem c6_witness :
    (processFunctionCalls [fcBadJson, fcUnknown] exampleVars failOracle).result =
      strJoin ([fcBadJson, fcUnknown].map fun c =>
        (executeFunctionCall c exampleVars failOracle).result) ∧
    (executeFunctionCall fcBadJson exampleVars failOracle).result =
      funcExecErrorText jsonParseErrMsg :=
  ⟨(c6_tool_failure_contained [fcBadJson, fcUnknown] exampleVars failOracle fcBadJson
      (by decide)).1,
   (c6_tool_failure_contained [fcBadJson, fcUnknown] exampleVars failOracle fcBadJson
      (by decide)).2.2.1 rfl rfl⟩

/-- C7: for every key and every prior store state, `clearHistory` followed
by `getHistory` yields the empty sequence; clearing an absent key is a
no-op that leaves the store in literally the same state; and clearing the
same key twice equals clearing it once. -/
theorem c7_clear_history (s : ConvState) (t : String) :
    historyContents t (clearHistory t s) = [] ∧
    (getHistory t s = none → clearHistory t s = s) ∧
    clearHistory t (clearHistory t s) = clearHistory t s := by
  refine ⟨?_, ?_, ?_⟩
  · apply historyContents_of_none
    exact mapLookup_filter_self t s.conversations
  · intro hnone
    show { s with conversations := s.conversations.filter (fun p => p.1 != t) } = s
    rw [filter_eq_self_of_none hnone]
  · show ({ s with conversations :=
        (s.conversations.filter (fun p => p.1 != t)).filter (fun p => p.1 != t) } : ConvState) = _
    rw [filter_eq_self_of_none (mapLookup_filter_self t s.conversations)]
    rfl

/-- C7 witness: the theorem instantiated on a concrete one-thread store,
including the absent-key no-op discharged concretely. -/
theorem c7_witness :
    historyContents "x" (clearHistory "x" c7store) = [] ∧
    clearHistory "y" c7store = c7store ∧
    clearHistory "x" (clearHistory "x" c7store) = clearHistory "x" c7store :=
  ⟨(c7_clear_history c7store "x").1, (c7_clear_history c7store "y").2.1 rfl,
   (c7_clear_history c7store "x").2.2⟩

/-- C8: appending to thread A leaves the observed history of every other
thread B unchanged, for every well-formed store state. -/
theorem c8_append_other_thread (s : ConvState) (A B role content ts : String)
    (hwf : WF s) (hne : A ≠ B) :
    historyContents B (addMessage A role content ts s) = historyContents B s :=
  historyContents_addMessage_other hwf hne role content ts

/-- C8 witness: appending to "A" does not change the history of "B" on a
concrete store holding one message for "B". -/
theorem c8_witness :
    historyContents "B" (addMessage "A" "user" "x" "ts2" c8store) = historyContents "B" c8store :=
  c8_append_other_thread c8store "A" "B" "user" "x" "ts2"
    (wf_addMessage (wf_mk 10) "B" "user" "hi" "ts1") (by decide)

/-- C9: the message list built for the completion call is exactly the
system prompt first, then the history messages oldest-to-newest, each
reduced to role and content (timestamps dropped), then the current user
message with role `user` last. -/
theorem c9_message_list_order (systemPrompt : String) (history : List Message)
    (currentMessage : String) :
    formatMessagesForOpenAI systemPrompt history currentMessage =
      ⟨"system", systemPrompt⟩ ::
        ((history.map fun msg => (⟨msg.role, msg.content⟩ : OpenAIMessage)) ++
          [⟨"user", currentMessage⟩]) := by
  show (history.foldl (fun acc msg => acc ++ [(⟨msg.role, msg.content⟩ : OpenAIMessage)])
      [⟨"system", systemPrompt⟩]) ++ [⟨"user", currentMessage⟩] = _
  rw [foldl_push_map]
  simp

/-- C10: when the variables carry no non-empty OPENAI_API_KEY,
`processMessage` streams the missing-key message, completes with it, and
leaves the conversation store completely unchanged: neither the user turn
nor an assistant turn is appended to any thread. -/
theorem c10_missing_key_leaves_store (store : ConvState) (data : ChatData)
    (chunks : List StreamChunk) (oracle : DalleOracle) (tsUser tsAssistant : String)
    (hkey : jsTruthyS (varsGet data.vars "OPENAI_API_KEY") = false) :
    processMessage store data chunks oracle tsUser tsAssistant =
      { sink := [.textChunk missingKeyMsg],
        completion := .complete missingKeyMsg none none,
        store := store } :=
  processMessage_missingKey chunks oracle tsUser tsAssistant hkey

/-- C10 witness: a request with an empty variables list is answered with
the missing-key message and the store it started from. -/
theorem c10_witness :
    processMessage (mkConversationManager 10) noKeyData helloChunks okOracle "u1" "a1" =
      { sink := [.textChunk missingKeyMsg],
        completion := .complete missingKeyMsg none none,
        store := mkConversationManager 10 } :=
  c10_missing_key_leaves_store (mkConversationManager 10) noKeyData helloChunks okOracle
    "u1" "a1" rfl
